import Mathlib

/-!
Shallow embedding of the PS/2 keyboard-emulator firmware
(`Usbhost_Keyboard_to_PS2.ino` and its interrupt-driven revision):
the scan-code translator `sendPS2scanCode`, the bit-banged frame
transmitter `sendPS2byte`, the command interpreter `parsePS2cmd`,
the clock-edge handler `PS2clk_change_isr`, and the autorepeat part
of `loop`.  Byte values and delays are `Nat`s; emitted bytes become
explicit lists; the global mutable variables become explicit state
records threaded through the functions.
-/

namespace PS2

/-! ## Constants from the source's `#define` block -/

def setStatusCmd : Nat := 0xED
def diagnosticCmd : Nat := 0xEE
def set_getScancode : Nat := 0xF0
def readIdCmd : Nat := 0xF2
def repeatRateCmd : Nat := 0xF3
def resendCmd : Nat := 0xFE
def resetKeybCmd : Nat := 0xFF

def ackResponse : Nat := 0xFA
def readIdByte1 : Nat := 0xAB
def readIdByte2 : Nat := 0x83
def selfTestOk : Nat := 0xAA
def scanCodeVal : Nat := 0x41

def repeatKeyInterval : Nat := 270
def makeBreakPS2delay : Nat := 40
def ackResponseDelay : Nat := 700
def keyboardResetDelay : Nat := 400000
def PS2cmdResponseDelay : Nat := 950
def PS2scanCodeDelay : Nat := 1500

/-- Bus state `Clk_Data`: clk = 1 and data = 1 (idle bus). -/
def Clk_Data : Nat := 0x03

/-! ## Frame transmitter `sendPS2byte`

The transmitter puts on the data line: a start bit (low), the 8 data
bits LSB-first, an odd-parity bit, and a stop bit (high), while
toggling the clock.  We model the sequence of data-line levels
(1 = line high).  `trueBitCnt` mirrors the loop that counts the
transmitted 1-bits, and `parityBitOf` mirrors the
`if ((trueBitCnt & 0x01) == 0)` write of the parity slot. -/

def dataBit (b i : Nat) : Nat := (b >>> i) &&& 1

def trueBitCnt (b : Nat) : Nat :=
  (List.range 8).foldl (fun c i => if dataBit b i ≠ 0 then c + 1 else c) 0

def parityBitOf (b : Nat) : Nat :=
  if trueBitCnt b &&& 1 = 0 then 1 else 0

/-- The 11 data-line levels of one transmitted frame:
start(0), 8 data bits LSB-first, parity, stop(1). -/
def sendPS2byteFrame (b : Nat) : List Nat :=
  0 :: ((List.range 8).map (dataBit b) ++ [parityBitOf b, 1])

lemma dataBit_le_one (b i : Nat) : dataBit b i ≤ 1 := by
  unfold dataBit
  have := Nat.and_le_right (n := b >>> i) (m := 1)
  omega

lemma foldl_count_eq_sum (l : List Nat) (hl : ∀ x ∈ l, x ≤ 1) (a : Nat) :
    l.foldl (fun c x => if x ≠ 0 then c + 1 else c) a = a + l.sum := by
  induction l generalizing a with
  | nil => simp
  | cons x t ih =>
    have hx : x ≤ 1 := hl x (by simp)
    have ht : ∀ y ∈ t, y ≤ 1 := fun y hy => hl y (by simp [hy])
    rw [List.foldl_cons, List.sum_cons]
    by_cases h : x = 0
    · subst h
      simp only [ne_eq, not_true_eq_false, if_false]
      rw [ih ht a]
      omega
    · have hx1 : x = 1 := by omega
      subst hx1
      simp only [ne_eq, one_ne_zero, not_false_eq_true, if_true]
      rw [ih ht (a + 1)]
      omega

lemma trueBitCnt_eq_sum (b : Nat) :
    trueBitCnt b = ((List.range 8).map (dataBit b)).sum := by
  unfold trueBitCnt
  rw [← List.foldl_map (dataBit b) (fun c x => if x ≠ 0 then c + 1 else c)]
  rw [foldl_count_eq_sum]
  · omega
  · intro x hx
    rcases List.mem_map.mp hx with ⟨i, _, rfl⟩
    exact dataBit_le_one b i

/-- Claim C2: for every byte given to the frame transmitter, the parity
slot of the frame is 1 exactly when the count of transmitted 1-bits is
even, the parity slot of the 11-bit frame is that bit, and the number
of 1-bits among the 8 data bits plus the parity bit is odd. -/
theorem sendPS2byte_odd_parity (b : Nat) :
    (parityBitOf b = 1 ↔ trueBitCnt b % 2 = 0) ∧
    (sendPS2byteFrame b)[9]? = some (parityBitOf b) ∧
    trueBitCnt b = ((List.range 8).map (dataBit b)).sum ∧
    (((List.range 8).map (dataBit b)).sum + parityBitOf b) % 2 = 1 := by
  have hmod : trueBitCnt b &&& 1 = trueBitCnt b % 2 := Nat.and_one_is_mod _
  refine ⟨?_, ?_, trueBitCnt_eq_sum b, ?_⟩
  · unfold parityBitOf
    rw [hmod]
    rcases Nat.mod_two_eq_zero_or_one (trueBitCnt b) with h | h <;> simp [h]
  · rfl
  · rw [← trueBitCnt_eq_sum b]
    unfold parityBitOf
    rw [hmod]
    rcases Nat.mod_two_eq_zero_or_one (trueBitCnt b) with h | h
    · simp [h]
      omega
    · simp [h]

/-! ## Key-event translator `sendPS2scanCode`

The USB-to-PS/2 lookup data lives in `USBtoPS2_conversion_table.h`: a
256-entry two-byte table `USBtoPS2scanSet2` and the fixed sequences
`PrtPauseMake` (8 bytes), `PrtScrMake` (4 bytes), `PrtScrBreak`
(6 bytes).  We abstract it as a structure so the translator's control
flow can be verified for an arbitrary table. -/

structure ScanTable where
  USBtoPS2scanSet2 : Nat → Nat × Nat
  PrtPauseMake : Fin 8 → Nat
  PrtScrMake : Fin 4 → Nat
  PrtScrBreak : Fin 6 → Nat

/-- The 1 or 2 table bytes sent in the translator's `default` branch:
first table byte, then the second only when it is non-zero. -/
def scanBytes (tbl : ScanTable) (k : Nat) : List Nat :=
  (tbl.USBtoPS2scanSet2 k).1 ::
    (if (tbl.USBtoPS2scanSet2 k).2 ≠ 0 then [(tbl.USBtoPS2scanSet2 k).2] else [])

/-- One arm of the modifier `switch (mod)` dispatch: `m` is the masked
modifier value `modifier & (1 << i)`, and on `makeBreak == 0` (release)
the arm first sends the 0xF0 break code. -/
def modifierCaseBytes (m makeBreak : Nat) : List Nat :=
  let pre : List Nat := if makeBreak = 0 then [0xF0] else []
  if m = 0x01 then pre ++ [0x14]
  else if m = 0x02 then pre ++ [0x12]
  else if m = 0x04 then pre ++ [0x11]
  else if m = 0x08 then pre ++ [0xE0, 0x27]
  else if m = 0x10 then pre ++ [0xE0, 0x14]
  else if m = 0x20 then pre ++ [0x59]
  else if m = 0x40 then pre ++ [0xE0, 0x11]
  else []

/-- The bytes emitted by `sendPS2scanCode(USBkeycode, makeBreak, modifier)`
(the source sends each via `sendPS2scanbyte`).  `makeBreak = 1` is a key
press (make) and `makeBreak = 0` a key release (break), per the source's
`onKeyboardKey` documentation. -/
def sendPS2scanCodeBytes (tbl : ScanTable) (USBkeycode makeBreak modifier : Nat) :
    List Nat :=
  if modifier = 0 then
    if USBkeycode = 0x48 then
      if makeBreak = 1 then List.ofFn tbl.PrtPauseMake else []
    else if USBkeycode = 0x46 then
      if makeBreak = 1 then List.ofFn tbl.PrtScrMake else List.ofFn tbl.PrtScrBreak
    else
      (if makeBreak = 0 then [0xF0] else []) ++ scanBytes tbl USBkeycode
  else
    (List.range 7).flatMap fun i =>
      if modifier &&& (1 <<< i) ≠ 0 then
        modifierCaseBytes (modifier &&& (1 <<< i)) makeBreak
      else []

/-- The repeat-eligibility test guarding the autorepeat arming:
letters/digits (0x04-0x27), backspace/tab/space (0x2A-0x2C),
arrow keys (0x4F-0x52). -/
def repeatEligible (k : Nat) : Bool :=
  (0x04 ≤ k && k ≤ 0x27) || (0x2A ≤ k && k ≤ 0x2C) || (0x4F ≤ k && k ≤ 0x52)

/-- The autorepeat globals written by `sendPS2scanCode` and read by
`loop`: `gotMakeKey`, `lastUSBkeycode`, `keyPressedTime`. -/
structure RepeatState where
  gotMakeKey : Bool
  lastUSBkeycode : Nat
  keyPressedTime : Nat
  deriving DecidableEq

/-- The state effect of `sendPS2scanCode`: in the `modifier == 0` path,
the `makeBreak == 0` branch arms the autorepeat candidate for
repeat-eligible keycodes (recording the keycode and the current
`millis()` value `now`), and the other branch clears `gotMakeKey`. -/
def sendPS2scanCodeState (s : RepeatState) (now USBkeycode makeBreak modifier : Nat) :
    RepeatState :=
  if modifier = 0 then
    if makeBreak = 0 then
      if repeatEligible USBkeycode then
        { gotMakeKey := true, lastUSBkeycode := USBkeycode, keyPressedTime := now }
      else s
    else
      { s with gotMakeKey := false }
  else s

/-- Modelled from the spec: the header `USBtoPS2_conversion_table.h` is
not among the provided sources, so only the entry the spec pins down is
modelled — Scenario A gives keycode 0x04 (letter a) the single scan byte
0x1C, i.e. table entry (0x1C, 0).  All other entries and the fixed
Pause/PrintScreen sequences are left as zeros; no theorem depends on
them. -/
def specUSBtoPS2table : ScanTable where
  USBtoPS2scanSet2 := fun k => if k = 0x04 then (0x1C, 0) else (0, 0)
  PrtPauseMake := fun _ => 0
  PrtScrMake := fun _ => 0
  PrtScrBreak := fun _ => 0

/-- Claim C1: with `modifierMask = 0` and a keycode other than 0x48 and
0x46, a press emits the first table byte followed by the second exactly
when the second is non-zero, a release emits the same bytes prefixed by
the break code 0xF0, and for a table carrying the spec's entry
0x04 ↦ (0x1C, 0) the press emits [0x1C] and the release [0xF0, 0x1C]. -/
theorem sendPS2scanCode_table_fidelity (tbl : ScanTable) (k : Nat)
    (h48 : k ≠ 0x48) (h46 : k ≠ 0x46) :
    sendPS2scanCodeBytes tbl k 0 0 = 0xF0 :: sendPS2scanCodeBytes tbl k 1 0 ∧
    ((tbl.USBtoPS2scanSet2 k).2 = 0 →
      sendPS2scanCodeBytes tbl k 1 0 = [(tbl.USBtoPS2scanSet2 k).1]) ∧
    ((tbl.USBtoPS2scanSet2 k).2 ≠ 0 →
      sendPS2scanCodeBytes tbl k 1 0 =
        [(tbl.USBtoPS2scanSet2 k).1, (tbl.USBtoPS2scanSet2 k).2]) ∧
    (tbl.USBtoPS2scanSet2 0x04 = (0x1C, 0) →
      sendPS2scanCodeBytes tbl 0x04 1 0 = [0x1C] ∧
      sendPS2scanCodeBytes tbl 0x04 0 0 = [0xF0, 0x1C]) := by
  refine ⟨?_, ?_, ?_, ?_⟩
  · simp [sendPS2scanCodeBytes, h48, h46]
  · intro h2
    simp [sendPS2scanCodeBytes, h48, h46, scanBytes, h2]
  · intro h2
    simp [sendPS2scanCodeBytes, h48, h46, scanBytes, h2]
  · intro h04
    constructor <;> simp [sendPS2scanCodeBytes, scanBytes, h04]

theorem sendPS2scanCode_table_fidelity_witness :
    sendPS2scanCodeBytes specUSBtoPS2table 0x04 1 0 = [0x1C] ∧
    sendPS2scanCodeBytes specUSBtoPS2table 0x04 0 0 = [0xF0, 0x1C] :=
  (sendPS2scanCode_table_fidelity specUSBtoPS2table 0x04 (by decide)
    (by decide)).2.2.2 (by rfl)

/-! ### Modifier dispatch (claim C6)

The spec describes the modifier path as an ordered table indexed by bit
position; `specModifierSeq`/`specModifierBytes` write that description
down so the source's switch-based dispatch can be proved equal to it. -/

/-- The spec's modifier table, bit 0 through bit 6: left-ctrl 0x14,
left-shift 0x12, left-alt 0x11, left-GUI 0xE0 0x27, right-ctrl
0xE0 0x14, right-shift 0x59, right-alt 0xE0 0x11. -/
def specModifierSeq : Nat → List Nat
  | 0 => [0x14]
  | 1 => [0x12]
  | 2 => [0x11]
  | 3 => [0xE0, 0x27]
  | 4 => [0xE0, 0x14]
  | 5 => [0x59]
  | 6 => [0xE0, 0x11]
  | _ => []

/-- The spec's wording of the modifier output: iterate the 7 bits in
increasing order and, for each asserted bit, emit the dedicated
sequence, 0xF0-prefixed on release. -/
def specModifierBytes (makeBreak modifier : Nat) : List Nat :=
  (List.range 7).flatMap fun i =>
    if modifier.testBit i then
      (if makeBreak = 0 then [0xF0] else []) ++ specModifierSeq i
    else []

lemma modifierChunk (modifier makeBreak i : Nat) (hi : i < 7) :
    (if modifier &&& (1 <<< i) ≠ 0 then
        modifierCaseBytes (modifier &&& (1 <<< i)) makeBreak
      else []) =
    (if modifier.testBit i then
        (if makeBreak = 0 then [0xF0] else []) ++ specModifierSeq i
      else []) := by
  have hpow : (1 : Nat) <<< i = 2 ^ i := Nat.one_shiftLeft i
  have hand : modifier &&& 2 ^ i = (modifier.testBit i).toNat * 2 ^ i :=
    Nat.and_two_pow modifier i
  by_cases hb : modifier.testBit i
  · rw [hpow, hand, hb]
    simp only [Bool.toNat_true, one_mul, if_true]
    have hne : (2 : Nat) ^ i ≠ 0 := by positivity
    rw [if_pos hne]
    interval_cases i <;> simp [modifierCaseBytes, specModifierSeq]
  · rw [hpow, hand]
    simp [hb]

/-- Claim C6: with a non-zero modifier mask the translator walks the 7
modifier bits in increasing order and emits each asserted bit's
dedicated sequence (0x14; 0x12; 0x11; 0xE0 0x27; 0xE0 0x14; 0x59;
0xE0 0x11), 0xF0-prefixed on release, exactly as the spec's ordered
table states; the output never depends on the base keycode or on the
lookup table. -/
theorem sendPS2scanCode_modifier_dispatch (tbl : ScanTable)
    (k makeBreak modifier : Nat) (h : modifier ≠ 0) :
    sendPS2scanCodeBytes tbl k makeBreak modifier =
      specModifierBytes makeBreak modifier ∧
    (∀ tbl2 k2, sendPS2scanCodeBytes tbl2 k2 makeBreak modifier =
      sendPS2scanCodeBytes tbl k makeBreak modifier) := by
  have main : ∀ (t : ScanTable) (kk : Nat),
      sendPS2scanCodeBytes t kk makeBreak modifier =
        specModifierBytes makeBreak modifier := by
    intro t kk
    unfold sendPS2scanCodeBytes specModifierBytes
    rw [if_neg h]
    have hrange : List.range 7 = [0, 1, 2, 3, 4, 5, 6] := rfl
    rw [hrange]
    simp only [List.flatMap_cons, List.flatMap_nil, List.append_nil]
    rw [modifierChunk modifier makeBreak 0 (by omega),
      modifierChunk modifier makeBreak 1 (by omega),
      modifierChunk modifier makeBreak 2 (by omega),
      modifierChunk modifier makeBreak 3 (by omega),
      modifierChunk modifier makeBreak 4 (by omega),
      modifierChunk modifier makeBreak 5 (by omega),
      modifierChunk modifier makeBreak 6 (by omega)]
  exact ⟨main tbl k, fun t2 k2 => by rw [main, main]⟩

theorem sendPS2scanCode_modifier_dispatch_witness :
    sendPS2scanCodeBytes specUSBtoPS2table 0x09 0 0x02 = specModifierBytes 0 0x02 :=
  (sendPS2scanCode_modifier_dispatch specUSBtoPS2table 0x09 0 0x02 (by decide)).1

/-- Claim C8 (divergence evidence): with `makeBreak = 1` — a key press,
per the source's own `onKeyboardKey` doc comment — the translator
CLEARS the autorepeat candidate, and it ARMS the candidate on
`makeBreak = 0` (a release): the opposite of the documented and
specified behaviour. -/
theorem sendPS2scanCodeState_armed_on_release (s : RepeatState) (now : Nat) :
    (sendPS2scanCodeState s now 0x04 1 0).gotMakeKey = false ∧
    sendPS2scanCodeState s now 0x04 0 0 =
      { gotMakeKey := true, lastUSBkeycode := 0x04, keyPressedTime := now } := by
  constructor
  · simp [sendPS2scanCodeState]
  · simp [sendPS2scanCodeState, repeatEligible]

/-- Claim C10: a Pause (0x48) release with no modifier emits no bytes
at all, while its press emits the fixed 8-byte make sequence; every
other non-modifier keycode outside the two hard-coded ones emits a
0xF0-headed sequence on release, and even the PrintScreen release is
non-silent (6 bytes). -/
theorem pauseBreakSilent (tbl : ScanTable) :
    sendPS2scanCodeBytes tbl 0x48 0 0 = [] ∧
    (sendPS2scanCodeBytes tbl 0x48 1 0).length = 8 ∧
    (∀ k, k ≠ 0x48 → k ≠ 0x46 →
      (sendPS2scanCodeBytes tbl k 0 0).head? = some 0xF0) ∧
    (sendPS2scanCodeBytes tbl 0x46 0 0).length = 6 := by
  refine ⟨by simp [sendPS2scanCodeBytes], by simp [sendPS2scanCodeBytes], ?_,
    by simp [sendPS2scanCodeBytes]⟩
  intro k h48 h46
  simp [sendPS2scanCodeBytes, h48, h46]

theorem pauseBreakSilent_witness :
    (sendPS2scanCodeBytes specUSBtoPS2table 0x05 0 0).head? = some 0xF0 :=
  (pauseBreakSilent specUSBtoPS2table).2.2.1 0x05 (by decide) (by decide)

/-! ## Command interpreter `parsePS2cmd`

The interpreter's globals (`lastPS2cmd`, the payload registers, and the
shared `PS2cmdReady` flag) become a record.  The environment reads the
source performs — whether `PS2cmdReady` was re-set by the ISR during
the 350 µs settle window (`newPending`), and the bus state sampled at
the re-check (`bus`) — become parameters.  The result is the list of
`sendPS2byte(byte, beforeDelay)` transmissions, in order, paired with
the updated state. -/

structure CmdState where
  lastPS2cmd : Nat
  repeatRate : Nat
  keyboardStatus : Nat
  setScanCodeVal : Nat
  PS2cmdReady : Bool
  deriving DecidableEq

def parsePS2cmd (s : CmdState) (rxByte : Nat) (newPending : Bool) (bus : Nat) :
    List (Nat × Nat) × CmdState :=
  let ackTx : List (Nat × Nat) := [(ackResponse, ackResponseDelay)]
  if newPending then
    (ackTx, { s with lastPS2cmd := rxByte, PS2cmdReady := true })
  else
    let respTx : List (Nat × Nat) :=
      if bus = Clk_Data then
        (if rxByte = resetKeybCmd then [(selfTestOk, keyboardResetDelay)] else []) ++
        (if rxByte = readIdCmd then
          [(readIdByte1, PS2cmdResponseDelay), (readIdByte2, PS2cmdResponseDelay)]
         else []) ++
        (if rxByte = diagnosticCmd then [(diagnosticCmd, PS2cmdResponseDelay)] else [])
      else []
    let s1 := if s.lastPS2cmd = repeatRateCmd then { s with repeatRate := rxByte } else s
    let s2 := if s.lastPS2cmd = setStatusCmd then { s1 with keyboardStatus := rxByte } else s1
    let s3 := if s.lastPS2cmd = set_getScancode then { s2 with setScanCodeVal := rxByte } else s2
    let scanTx : List (Nat × Nat) :=
      if s.lastPS2cmd = set_getScancode ∧ rxByte = 0 then
        [(scanCodeVal, PS2cmdResponseDelay)]
      else []
    (ackTx ++ respTx ++ scanTx, { s3 with lastPS2cmd := rxByte, PS2cmdReady := false })

/-- Claim C3 counterexample: on receiving the resend command 0xFE the
interpreter still transmits the acknowledgement 0xFA (first, with the
700 µs ack delay) — the claimed resend exception does not exist in the
code. -/
theorem parsePS2cmd_resend_still_acked :
    ((parsePS2cmd ⟨0x33, 0, 0, 0, false⟩ 0xFE false Clk_Data).1).head? =
      some (0xFA, 700) := by
  rfl

/-- Claim C3 amended: every received command byte — the resend command
0xFE included — is immediately answered with the acknowledgement byte
0xFA, transmitted first. -/
theorem parsePS2cmd_always_acks (s : CmdState) (rxByte : Nat)
    (newPending : Bool) (bus : Nat) :
    ((parsePS2cmd s rxByte newPending bus).1).head? =
      some (ackResponse, ackResponseDelay) := by
  unfold parsePS2cmd
  by_cases h : newPending = true
  · rw [if_pos h]
    rfl
  · rw [if_neg h]
    rfl

/-- Claim C4: when the received byte is the reset command 0xFF and the
re-check finds no newly pending command and an idle bus (clk = 1 and
data = 1), the interpreter transmits exactly the acknowledgement 0xFA
and then the self-test-OK byte 0xAA, the latter carrying the emulated
keyboard-reset pre-delay of 400000 µs — hundreds of milliseconds. -/
theorem parsePS2cmd_reset (s : CmdState) :
    (parsePS2cmd s resetKeybCmd false Clk_Data).1 =
      [(ackResponse, ackResponseDelay), (selfTestOk, keyboardResetDelay)] ∧
    keyboardResetDelay = 400000 ∧
    100000 ≤ keyboardResetDelay ∧ keyboardResetDelay < 1000000 := by
  refine ⟨?_, rfl, by decide, by decide⟩
  unfold parsePS2cmd
  simp [resetKeybCmd, readIdCmd, diagnosticCmd, set_getScancode, Clk_Data,
    ackResponse, ackResponseDelay, selfTestOk]

/-- Claim C5: a byte B processed while `lastPS2cmd` is the
set/get-scan-code-set command 0xF0 (and no new command preempts the
window) is stored in `setScanCodeVal`, and when B = 0 the interpreter
additionally transmits the scan-code-set-2 identifier byte 0x41. -/
theorem parsePS2cmd_scanCodeSet (s : CmdState) (b : Nat) (bus : Nat)
    (h : s.lastPS2cmd = set_getScancode) :
    ((parsePS2cmd s b false bus).2).setScanCodeVal = b ∧
    (b = 0 → (scanCodeVal, PS2cmdResponseDelay) ∈ (parsePS2cmd s b false bus).1) := by
  constructor
  · unfold parsePS2cmd
    simp [h]
  · intro hb
    unfold parsePS2cmd
    simp [h, hb]

theorem parsePS2cmd_scanCodeSet_witness :
    ((parsePS2cmd ⟨0xF0, 0, 0, 0x33, false⟩ 0 false Clk_Data).2).setScanCodeVal = 0 ∧
    (scanCodeVal, PS2cmdResponseDelay) ∈
      (parsePS2cmd ⟨0xF0, 0, 0, 0x33, false⟩ 0 false Clk_Data).1 := by
  have h := parsePS2cmd_scanCodeSet ⟨0xF0, 0, 0, 0x33, false⟩ 0 Clk_Data (by rfl)
  exact ⟨h.1, h.2 rfl⟩

/-! ## Clock-edge handler `PS2clk_change_isr` (claim C7)

The handler's effect on the shared `PS2cmdReady` flag: `rising` tells
which clock edge fired, `lowTime` is the value the stopped 1 µs counter
shows on the rising edge, and `dataLow` whether the data line reads
low.  On a falling edge the handler only restarts the counter and
leaves the flag alone; on a rising edge it sets the flag — and never
clears it — exactly when `lowTime > 100` and the data line is low. -/

def isrStep (ready : Bool) (rising : Bool) (lowTime : Nat) (dataLow : Bool) : Bool :=
  if rising then
    if lowTime > 100 ∧ dataLow = true then true else ready
  else ready

/-- Claim C7: the edge handler sets the pending-command flag exactly on
a rising edge with a measured clock-low time above 100 µs and the data
line low; it never clears a set flag (so only the main loop's
`parsePS2cmd`, which ends with the flag cleared whenever no new command
arrived meanwhile, lowers it). -/
theorem PS2cmdReady_single_writer :
    (∀ rising lowTime dataLow, isrStep true rising lowTime dataLow = true) ∧
    (∀ lowTime dataLow,
      isrStep false true lowTime dataLow = true ↔ lowTime > 100 ∧ dataLow = true) ∧
    (∀ lowTime dataLow, isrStep false false lowTime dataLow = false) ∧
    (∀ s rxByte bus, ((parsePS2cmd s rxByte false bus).2).PS2cmdReady = false) ∧
    (∀ s rxByte bus, ((parsePS2cmd s rxByte true bus).2).PS2cmdReady = true) := by
  refine ⟨?_, ?_, ?_, ?_, ?_⟩
  · intro rising lowTime dataLow
    unfold isrStep
    by_cases h : rising = true
    · rw [if_pos h]
      split <;> rfl
    · rw [if_neg h]
  · intro lowTime dataLow
    unfold isrStep
    constructor
    · intro h
      by_contra hc
      rw [if_pos rfl, if_neg hc] at h
      exact Bool.false_ne_true h
    · intro h
      rw [if_pos rfl, if_pos h]
  · intro lowTime dataLow
    rfl
  · intro s rxByte bus
    unfold parsePS2cmd
    simp
  · intro s rxByte bus
    rfl

/-! ## Autorepeat in `loop` (claim C9)

`millis()` values are 32-bit; `u32sub` is the unsigned wrap-around
difference `now - keyPressedTime` the source computes.  One loop tick
checks `gotMakeKey` and the 270 ms interval and, when both hold, sends
the break code plus the candidate's table bytes, waits the 40 ms gap
(`makeBreakPS2delay`), re-sends the table bytes as the make, and
restamps the timer with the `millis()` value `later` read after the
sends. -/

def u32sub (a b : Nat) : Nat := (a + 4294967296 - b) % 4294967296

def loopRepeatTick (tbl : ScanTable) (s : RepeatState) (now later : Nat) :
    (List Nat × List Nat) × RepeatState :=
  if s.gotMakeKey = true ∧ u32sub now s.keyPressedTime > repeatKeyInterval then
    ((0xF0 :: scanBytes tbl s.lastUSBkeycode, scanBytes tbl s.lastUSBkeycode),
      { s with keyPressedTime := later })
  else (([], []), s)

/-- Claim C9: when the candidate is armed and more than 270 ms have
elapsed, the loop emits the break code 0xF0 followed by the candidate's
table bytes, then (after the 40 ms `makeBreakPS2delay` gap) the same
table bytes as the make, and restamps the timer; otherwise it emits
nothing and leaves the state untouched. -/
theorem loopRepeatTick_spec (tbl : ScanTable) (s : RepeatState) (now later : Nat) :
    (s.gotMakeKey = true → u32sub now s.keyPressedTime > 270 →
      loopRepeatTick tbl s now later =
        ((0xF0 :: scanBytes tbl s.lastUSBkeycode, scanBytes tbl s.lastUSBkeycode),
          { s with keyPressedTime := later })) ∧
    (s.gotMakeKey = false ∨ u32sub now s.keyPressedTime ≤ 270 →
      loopRepeatTick tbl s now later = (([], []), s)) ∧
    makeBreakPS2delay = 40 ∧ repeatKeyInterval = 270 := by
  refine ⟨?_, ?_, rfl, rfl⟩
  · intro h1 h2
    unfold loopRepeatTick
    rw [if_pos ⟨h1, h2⟩]
  · intro h
    unfold loopRepeatTick
    rw [if_neg ?_]
    rintro ⟨hg, hi⟩
    rcases h with h | h
    · rw [h] at hg
      exact Bool.false_ne_true hg
    · have hle : ¬ u32sub now s.keyPressedTime > repeatKeyInterval := by
        unfold repeatKeyInterval
        omega
      exact hle hi

theorem loopRepeatTick_spec_witness :
    loopRepeatTick specUSBtoPS2table ⟨true, 0x04, 0⟩ 300 350 =
      (([0xF0, 0x1C], [0x1C]), ⟨true, 0x04, 350⟩) :=
  ((loopRepeatTick_spec specUSBtoPS2table ⟨true, 0x04, 0⟩ 300 350).1 rfl
    (by decide)).trans (by rfl)

end PS2
